import Mathlib

/-!
Verification of the steam-download-monitor log engine and resolver.

Shallow embedding conventions:
* Timestamps are `Int` seconds; the wall clock `now` is passed explicitly
  (the code calls `dt.datetime.now()`; `(now - ts).total_seconds()` becomes
  `now - ts`).
* Floating point rate values become `ℚ` (the conversions multiply/divide by
  constants; `ℚ` keeps them exact).
* The regex layer of `parser.py` is abstracted: a physical log line is
  represented by what the fixed regexes extract from it (`Line` below); all
  downstream state updates, windows, sorting and decision logic are
  translated from the source.
* Python `dict`s (insertion ordered) become association lists; `sorted`
  (a stable sort) becomes `List.insertionSort`, which is also stable, with
  the same comparator.
* `LogParser` instance attributes become the `LogState` record; methods
  take the state plus the current file content (`List Line`) explicitly.
-/

namespace SteamMonitor

/-- parser.py: MAX_AGE_SEC = 180. -/
def MAX_AGE_SEC : Int := 180

/-- parser.py: PRUNE_AGE_SEC = 3600. -/
def PRUNE_AGE_SEC : Int := 3600

/-- Lifecycle event kinds: the three pattern families of parser.py
(PAUSE_PATTERNS / START_PATTERNS / NETWORK_PATTERNS). -/
inductive EType
  | start
  | pause
  | network
deriving DecidableEq

/-- One entry of `recent_events[app_id]`: a `(ts, etype)` tuple. -/
structure Event where
  ts : Int
  etype : EType
deriving DecidableEq

/-- One entry of `rate_entries`: a `(ts, app_id, rate_str)` tuple. -/
structure RateEntry where
  ts : Int
  app_id : Int
  rate_str : String
deriving DecidableEq

/-- The three units accepted by `_LINE_RE` (KB/s | MB/s | Mbps,
case-insensitive, already lowercased by the code). -/
inductive RateUnit
  | kbs
  | mbs
  | mbps
deriving DecidableEq

/-- What `_LINE_RE` extracts from a rate line: the bracketed timestamp, the
parsed float value, the unit, and the raw value string (`match.group(2)`). -/
structure RateMatch where
  ts : Int
  value : ℚ
  unit : RateUnit
  raw : String
deriving DecidableEq

/-- Abstraction of one physical log line: everything the fixed regexes of
parser.py can extract from it.
* `rate`: the `_LINE_RE` match, if any;
* `appIds`: all `AppID <n>` captures in order (`re.findall`), as integers;
* `depots`: all `depot <n>` captures in order (`re.findall`), raw strings;
* `depotMap`: the `DEPOT_PATTERNS` match (depot_id, app_id), if any;
* `lcTs`: the first bare `YYYY-MM-DD hh:mm:ss` timestamp on the line;
* `lcKind`: the classification of the line by the ordered
  pause/start/network pattern list (first match wins), for the line's
  first AppID, if any pattern matches. -/
structure Line where
  rate : Option RateMatch
  appIds : List Int
  depots : List String
  depotMap : Option (String × Int)
  lcTs : Option Int
  lcKind : Option EType
deriving DecidableEq

/-- The mutable state of `LogParser`: cursor and derived indexes. -/
structure LogState where
  last_pos : Nat
  latest_rate : Option (Int × ℚ)
  recent_events : List (Int × List Event)
  depot_to_app : List (String × Int)
  rate_entries : List RateEntry
deriving DecidableEq

/-- Python dict lookup `d.get(k)` on an insertion-ordered assoc list. -/
def dict_get {α β : Type} [DecidableEq α] (d : List (α × β)) (k : α) : Option β :=
  (d.find? (fun p => p.1 = k)).map (fun p => p.2)

/-- Python dict lookup with default, `d.get(k, v0)`. -/
def dict_get_d {α β : Type} [DecidableEq α] (d : List (α × β)) (k : α) (v0 : β) : β :=
  (dict_get d k).getD v0

/-- Python dict assignment `d[k] = v`: overwrite in place, or append. -/
def dict_set {α β : Type} [DecidableEq α] : List (α × β) → α → β → List (α × β)
  | [], k, v => [(k, v)]
  | p :: d, k, v => if p.1 = k then (k, v) :: d else p :: dict_set d k v

/-- Python `d.setdefault(k, [])` for the event map. -/
def dict_setdefault (d : List (Int × List Event)) (k : Int) : List (Int × List Event) :=
  if (dict_get d k).isSome then d else d ++ [(k, [])]

/-- Python `d[k].append(e)` for the event map (key known present). -/
def dict_append (d : List (Int × List Event)) (k : Int) (e : Event) : List (Int × List Event) :=
  d.map (fun p => if p.1 = k then (p.1, p.2 ++ [e]) else p)

/-- Unit conversion of `_update_log_state`: KB/s × 1024, MB/s × 1024 × 1024,
Mbps × 1_000_000 / 8. -/
def convert_rate (value : ℚ) : RateUnit → ℚ
  | RateUnit.kbs => value * 1024
  | RateUnit.mbs => value * 1024 * 1024
  | RateUnit.mbps => value * 1000000 / 8

/-- True when the line matched `_LINE_RE` but its timestamp is older than
MAX_AGE_SEC; the code then runs `continue`, skipping the whole line
(including its depot and lifecycle processing). -/
def rate_stale (now : Int) (ln : Line) : Bool :=
  match ln.rate with
  | some r => decide (MAX_AGE_SEC < now - r.ts)
  | none => false

/-- The rate-matcher part of the per-line loop (timestamp already known to
be fresh): update `latest_rate` if strictly newer, attribute the rate to an
app via the first `AppID` token or else the first `depot` token looked up in
`depot_to_app`, and append to `rate_entries` when attributed. -/
def process_rate (st : LogState) (ln : Line) : LogState :=
  match ln.rate with
  | none => st
  | some r =>
    let speed_bytes := convert_rate r.value r.unit
    let st1 :=
      match st.latest_rate with
      | none => { st with latest_rate := some (r.ts, speed_bytes) }
      | some lr =>
        if lr.1 < r.ts then { st with latest_rate := some (r.ts, speed_bytes) } else st
    let app? : Option Int :=
      match ln.appIds with
      | a :: _ => some a
      | [] =>
        match ln.depots with
        | d :: _ => dict_get st1.depot_to_app d
        | [] => none
    { st1 with
      rate_entries := st1.rate_entries ++
        (match app? with
         | some a => [⟨r.ts, a, r.raw⟩]
         | none => []) }

/-- The depot-matcher part of the per-line loop: `depot_to_app[d] = a`. -/
def process_depot (st : LogState) (ln : Line) : LogState :=
  match ln.depotMap with
  | some da => { st with depot_to_app := dict_set st.depot_to_app da.1 da.2 }
  | none => st

/-- The lifecycle-matcher part of the per-line loop: `setdefault` the entry
for the line's first AppID, then, if the line timestamp is within
PRUNE_AGE_SEC and a lifecycle pattern classified the line, append the
event. -/
def process_lifecycle (now : Int) (st : LogState) (ln : Line) : LogState :=
  match ln.appIds with
  | [] => st
  | a :: _ =>
    let st1 := { st with recent_events := dict_setdefault st.recent_events a }
    match ln.lcTs with
    | none => st1
    | some ts =>
      if PRUNE_AGE_SEC < now - ts then st1
      else
        match ln.lcKind with
        | some k => { st1 with recent_events := dict_append st1.recent_events a ⟨ts, k⟩ }
        | none => st1

/-- One iteration of the `for line in lines` loop of `_update_log_state`:
a stale rate timestamp aborts the whole line (`continue`); otherwise the
three matchers run in source order (rate, depot, lifecycle). -/
def process_line (now : Int) (st : LogState) (ln : Line) : LogState :=
  if rate_stale now ln then st
  else process_lifecycle now (process_depot (process_rate st ln) ln) ln

/-- The whole per-line loop. -/
def process_lines (now : Int) (st : LogState) (lines : List Line) : LogState :=
  lines.foldl (process_line now) st

/-- The prune pass at the end of `_update_log_state`: drop rate entries and
events older than PRUNE_AGE_SEC, then delete empty per-app lists. -/
def prune_state (now : Int) (st : LogState) : LogState :=
  { st with
    rate_entries := st.rate_entries.filter (fun e => decide (now - e.ts ≤ PRUNE_AGE_SEC))
    recent_events :=
      (st.recent_events.map
        (fun p => (p.1, p.2.filter (fun e => decide (now - e.ts ≤ PRUNE_AGE_SEC))))).filter
        (fun p => !p.2.isEmpty) }

/-- `LogParser._update_log_state`. The file is its current list of
(abstracted) lines; the cursor counts lines. Truncation (current size
strictly below the cursor) forces a full reload from a cleared state; a
plain full load does the same; otherwise only the tail past the cursor is
read, and an empty tail returns early (before the prune pass). -/
def update_log_state (st : LogState) (file : List Line) (now : Int)
    (full_load : Bool := false) : LogState :=
  let current_size := file.length
  if current_size < st.last_pos ∨ full_load then
    prune_state now
      (process_lines now
        { last_pos := current_size, latest_rate := none, recent_events := [],
          depot_to_app := [], rate_entries := [] }
        file)
  else
    let lines := file.drop st.last_pos
    let st2 := { st with last_pos := current_size }
    if lines.isEmpty then st2 else prune_state now (process_lines now st2 lines)

/-- The pristine state built by `LogParser.__init__` before its initial
full load: cursor 0, all indexes empty. -/
def init_state : LogState :=
  { last_pos := 0, latest_rate := none, recent_events := [], depot_to_app := [],
    rate_entries := [] }

/-- `LogParser.read_latest_speed`: refresh, then return the cached latest
rate if it is at most MAX_AGE_SEC old. -/
def read_latest_speed (st : LogState) (file : List Line) (now : Int) : Option (Int × ℚ) :=
  let st1 := update_log_state st file now
  match st1.latest_rate with
  | some lr => if now - lr.1 ≤ MAX_AGE_SEC then some lr else none
  | none => none

/-- Key-reversing comparison used to model Python
`sorted(xs, key=f, reverse=True)` (stable descending by key). -/
def key_rev {α K : Type} [LinearOrder K] (κ : α → K) : α → α → Prop :=
  fun a b => κ b ≤ κ a

/-- Key comparison used to model Python `sorted(xs, key=f)`
(stable ascending by key). -/
def key_asc {α K : Type} [LinearOrder K] (κ : α → K) : α → α → Prop :=
  fun a b => κ a ≤ κ b

instance {α K : Type} [LinearOrder K] (κ : α → K) : DecidableRel (key_rev κ) :=
  fun a b => inferInstanceAs (Decidable (κ b ≤ κ a))

instance {α K : Type} [LinearOrder K] (κ : α → K) : DecidableRel (key_asc κ) :=
  fun a b => inferInstanceAs (Decidable (κ a ≤ κ b))

instance {α K : Type} [LinearOrder K] (κ : α → K) : IsTotal α (key_rev κ) :=
  ⟨fun a b => le_total (κ b) (κ a)⟩

instance {α K : Type} [LinearOrder K] (κ : α → K) : IsTotal α (key_asc κ) :=
  ⟨fun a b => le_total (κ a) (κ b)⟩

instance {α K : Type} [LinearOrder K] (κ : α → K) : IsTrans α (key_rev κ) :=
  ⟨fun _ _ _ hab hbc => le_trans hbc hab⟩

instance {α K : Type} [LinearOrder K] (κ : α → K) : IsTrans α (key_asc κ) :=
  ⟨fun _ _ _ hab hbc => le_trans hab hbc⟩

/-- `LogParser.get_most_recent_active_download` after the refresh: tier 1
walks rate entries sorted newest-first and returns the first fresh entry
with no strictly-later in-window pause event; tier 2 collects apps whose
latest event is a fresh start/network with no strictly-later in-window
pause, sorts them newest-first and returns the first. -/
def get_most_recent_active_download_core (now : Int) (st : LogState) : Option Int :=
  let sorted_rates := List.insertionSort (key_rev RateEntry.ts) st.rate_entries
  (sorted_rates.find? (fun e =>
      decide (now - e.ts ≤ MAX_AGE_SEC) &&
      !((List.insertionSort (key_asc Event.ts) (dict_get_d st.recent_events e.app_id [])).any
          (fun ev =>
            decide (ev.etype = EType.pause) && decide (e.ts < ev.ts) &&
            decide (now - ev.ts ≤ MAX_AGE_SEC))))).elim
    (let active_apps : List (Int × Int) := st.recent_events.filterMap (fun p =>
      let sorted_events := List.insertionSort (key_asc Event.ts) p.2
      (sorted_events.getLast?).elim none (fun last =>
        if ((decide (last.etype = EType.start) || decide (last.etype = EType.network)) &&
            decide (now - last.ts ≤ MAX_AGE_SEC)) &&
            !(sorted_events.any (fun ev =>
                decide (ev.etype = EType.pause) && decide (last.ts < ev.ts) &&
                decide (now - ev.ts ≤ MAX_AGE_SEC)))
        then some (last.ts, p.1) else none))
     ((List.insertionSort (key_rev (Prod.fst : Int × Int → Int)) active_apps).head?).map
       (fun c => c.2))
    (fun e => some e.app_id)

/-- `LogParser.get_most_recent_active_download`: lazy refresh, then decide. -/
def get_most_recent_active_download (st : LogState) (file : List Line) (now : Int) :
    Option Int :=
  get_most_recent_active_download_core now (update_log_state st file now)

/-- `LogParser.get_recent_pause_info` after the refresh. The Python method
sorts the stored per-app list in place (newest first), so it returns both
the answer and the mutated state. -/
def get_recent_pause_info_core (st : LogState) (app_id : Int) :
    Option (Int × String) × LogState :=
  match dict_get st.recent_events app_id with
  | none => (none, st)
  | some events =>
    if events.isEmpty then (none, st)
    else
      let sorted := List.insertionSort (key_rev Event.ts) events
      let st1 := { st with recent_events := dict_set st.recent_events app_id sorted }
      match sorted with
      | [] => (none, st1)
      | e :: _ => (if e.etype = EType.pause then some (e.ts, "paused") else none, st1)

/-- `LogParser.get_recent_pause_info`: lazy refresh, then decide. -/
def get_recent_pause_info (st : LogState) (file : List Line) (now : Int) (app_id : Int) :
    Option (Int × String) × LogState :=
  get_recent_pause_info_core (update_log_state st file now) app_id

/-- models.py `DownloadState`. -/
inductive DownloadState
  | downloading
  | paused
  | unpacking
  | idle
deriving DecidableEq

/-- The numeric manifest fields consumed by `get_status`: `int(data[k])`
for `BytesToDownload` / `BytesDownloaded`, `none` when the key is absent. -/
structure ManifestData where
  bytes_to_download : Option Int
  bytes_downloaded : Option Int
deriving DecidableEq

/-- `LogParser.get_status` after the `get_recent_pause_info` call: the pure
classification of (pause signal, StateFlags bitmask, byte counters, speed). -/
def get_status_pure (pause_info : Option (Int × String)) (flags : Int)
    (data : ManifestData) (speed : ℚ) : DownloadState :=
  if pause_info.isSome then DownloadState.paused
  else if Int.land flags 512 ≠ 0 then DownloadState.paused
  else
    match data.bytes_to_download, data.bytes_downloaded with
    | none, _ => DownloadState.idle
    | _, none => DownloadState.idle
    | some bytes_to_dl, some bytes_dl =>
      if bytes_to_dl = bytes_dl then
        if Int.land flags (Int.lor 2097152 4194304) ≠ 0 then DownloadState.unpacking
        else if 0 < speed then DownloadState.downloading
        else DownloadState.idle
      else if Int.land flags (Int.lor (Int.lor 256 1024) 1048576) ≠ 0 then
        if 0 < speed then DownloadState.downloading else DownloadState.paused
      else DownloadState.paused

/-- `LogParser.get_status`: pause lookup (with its lazy refresh), then the
pure classification. -/
def get_status (st : LogState) (file : List Line) (now : Int) (flags : Int)
    (data : ManifestData) (speed : ℚ) (app_id : Int) : DownloadState :=
  get_status_pure (get_recent_pause_info st file now app_id).1 flags data speed

/-- The manifest fields consumed by game_finder.py: `appid` (default "0"),
`name`, the raw `StateFlags` entry if present, and the byte counters. -/
structure ACFData where
  appid : Int
  name : String
  stateFlags : Option Int
  bytes_to_download : Option Int
  bytes_downloaded : Option Int
deriving DecidableEq

/-- One `appmanifest_*.acf` file seen by the fallback scan: its parsed
content (`none` when `parse_acf` or a field conversion raised, which the
code logs and skips) and its filesystem modification time. -/
structure ManifestFile where
  parsed : Option ACFData
  mtime : ℚ
deriving DecidableEq

/-- `int(data.get("StateFlags", "4"))`: the flags default used both by
`GameFinder._find_active_game_fallback` and `SteamMonitor.get_current_sample`. -/
def state_flags_of (d : ACFData) : Int :=
  d.stateFlags.getD 4

/-- The per-manifest classification inside
`GameFinder._find_active_game_fallback`'s loop. `none`: skipped (parse
failure, `appid == 0`, or download-family flags without strict byte
progress — the code appends such a manifest to neither bucket).
`some (true, ...)`: appended to `active_games`; `some (false, ...)`:
appended to `paused_games`. `paused_sig a` models
`get_recent_pause_info(a) is not None`. -/
def fallback_classify (paused_sig : Int → Bool) (m : ManifestFile) :
    Option (Bool × ℚ × ACFData) :=
  match m.parsed with
  | none => none
  | some d =>
    if d.appid = 0 then none
    else if paused_sig d.appid || decide (Int.land (state_flags_of d) 512 ≠ 0) then
      some (false, m.mtime, d)
    else if Int.land (state_flags_of d) (Int.lor (Int.lor 256 1024) 1048576) ≠ 0 then
      match d.bytes_to_download, d.bytes_downloaded with
      | some btd, some bd => if bd < btd then some (true, m.mtime, d) else none
      | _, _ => none
    else some (false, m.mtime, d)

/-- The `(last_modified, game)` entry a manifest contributes to the bucket
selected by `b` (`true` = `active_games`, `false` = `paused_games`) under a
given classification, or `none` when it contributes nothing there. -/
def bucket_entry (b : Bool) (classify : ManifestFile → Option (Bool × ℚ × ACFData))
    (m : ManifestFile) : Option (ℚ × ACFData) :=
  match classify m with
  | some (b2, t, d) => if b2 = b then some (t, d) else none
  | none => none

/-- One iteration of the fallback loop: append the manifest's entry to
`active_games` or `paused_games` (or to neither). -/
def fallback_step (paused_sig : Int → Bool)
    (acc : List (ℚ × ACFData) × List (ℚ × ACFData)) (m : ManifestFile) :
    List (ℚ × ACFData) × List (ℚ × ACFData) :=
  (acc.1 ++ (bucket_entry true (fallback_classify paused_sig) m).toList,
   acc.2 ++ (bucket_entry false (fallback_classify paused_sig) m).toList)

/-- `GameFinder._find_active_game_fallback`: bucket every manifest, then
return the most-recently-modified active game, else the most-recently-
modified paused game, else none. The returned `ACFData` stands for the
`DownloadingGame` built from that manifest. -/
def find_active_game_fallback (manifests : List ManifestFile) (paused_sig : Int → Bool) :
    Option ACFData :=
  let buckets := manifests.foldl (fallback_step paused_sig) ([], [])
  ((List.insertionSort (key_rev (Prod.fst : ℚ × ACFData → ℚ)) buckets.1).head?).elim
    (((List.insertionSort (key_rev (Prod.fst : ℚ × ACFData → ℚ)) buckets.2).head?).map
      (fun p => p.2))
    (fun a => some a.2)

/-- Python `\s` for the ACF regex and `str.strip()`. -/
def is_py_space (c : Char) : Bool :=
  c = ' ' || c = '\t' || c = '\n' || c = '\r' || c = '\x0b' || c = '\x0c'

/-- Python `str.strip()` on raw characters. -/
def py_strip (s : List Char) : List Char :=
  (((s.dropWhile is_py_space).reverse).dropWhile is_py_space).reverse

/-- One attempt of the regex `"(\s*[^"]+\s*)"\s*"(\s*[^"]+\s*)"` anchored at
the head of the character list: on success, the two (untrimmed) captures
and the remainder after the match. The character classes contain no quote,
so matching is deterministic (no backtracking). -/
def try_pair_match : List Char → Option (List Char × List Char × List Char)
  | '"' :: rest =>
    let g1 := rest.takeWhile (fun c => c ≠ '"')
    match rest.drop g1.length with
    | '"' :: r2 =>
      if g1.isEmpty then none
      else
        match r2.dropWhile is_py_space with
        | '"' :: r4 =>
          let g2 := r4.takeWhile (fun c => c ≠ '"')
          match r4.drop g2.length with
          | '"' :: r6 => if g2.isEmpty then none else some (g1, g2, r6)
          | _ => none
        | _ => none
    | _ => none
  | _ => none

/-- `re.finditer` over the quoted-pair pattern: leftmost, non-overlapping;
on failure at a position, advance one character. Fuel-driven; the wrapper
passes the content length, which each step strictly consumes. -/
def acf_scan (fuel : Nat) : List Char → List (List Char × List Char) :=
  match fuel with
  | 0 => fun _ => []
  | fuel' + 1 => fun cs =>
    match cs with
    | [] => []
    | c :: cs' =>
      match try_pair_match (c :: cs') with
      | some m => (m.1, m.2.1) :: acf_scan fuel' m.2.2
      | none => acf_scan fuel' cs'

/-- The body of `LogParser.parse_acf` on readable content: collect every
quoted-pair match into a dict, trimming both captures. -/
def acf_parse (content : List Char) : List (List Char × List Char) :=
  (acf_scan content.length content).foldl
    (fun d kv => dict_set d (py_strip kv.1) (py_strip kv.2)) []

/-- `_read_file_with_retry`'s loop from attempt `i` with `n` attempts left:
`attempts i` is the outcome of the i-th `open(...).read()` (`none` models a
`PermissionError`/`OSError`). -/
def read_retry_from (attempts : Nat → Option (List Char)) : Nat → Nat → Option (List Char)
  | _, 0 => none
  | i, n + 1 =>
    match attempts i with
    | some c => some c
    | none => read_retry_from attempts (i + 1) n

/-- `_read_file_with_retry(path, retries=3)`. -/
def read_file_with_retry (attempts : Nat → Option (List Char)) (retries : Nat) :
    Option (List Char) :=
  read_retry_from attempts 0 retries

/-- `LogParser.parse_acf`: raise `ACFParseError` when the bounded retry read
fails, otherwise scan the content for quoted pairs (which cannot raise). -/
def parse_acf (attempts : Nat → Option (List Char)) :
    Except String (List (List Char × List Char)) :=
  match read_file_with_retry attempts 3 with
  | none => Except.error "ACFParseError"
  | some content => Except.ok (acf_parse content)

/-- First element attaining the strict maximum of `κ` (Python's stable
descending sort puts it first). -/
def first_max_by {α K : Type} [LinearOrder K] (κ : α → K) : List α → Option α
  | [] => none
  | a :: l => some (l.foldl (fun acc x => if κ acc < κ x then x else acc) a)

/-- Last element attaining the maximum of `κ` (Python's stable ascending
sort puts it last). -/
def last_max_by {α K : Type} [LinearOrder K] (κ : α → K) : List α → Option α
  | [] => none
  | a :: l =>
    match last_max_by κ l with
    | none => some a
    | some m => some (if κ m < κ a then a else m)

/-- The `latest_rate` update step for one accepted sample: keep the held
sample unless the new timestamp is strictly newer. -/
def rate_step (cur : Option (Int × ℚ)) (s : Int × ℚ) : Option (Int × ℚ) :=
  match cur with
  | none => some s
  | some c => if c.1 < s.1 then some s else some c

/-- The accepted throughput sample of one line: the rate match, if present
and at most MAX_AGE_SEC old, with its value converted to bytes/sec. -/
def accepted_rate (now : Int) (ln : Line) : Option (Int × ℚ) :=
  match ln.rate with
  | some r => if now - r.ts ≤ MAX_AGE_SEC then some (r.ts, convert_rate r.value r.unit) else none
  | none => none

/-- All accepted throughput samples of a batch of lines, in order. -/
def accepted_rates (now : Int) (lines : List Line) : List (Int × ℚ) :=
  lines.filterMap (accepted_rate now)

/-- The lines a refresh actually processes: the whole file on truncation,
else the tail past the cursor. -/
def processed_lines (st : LogState) (file : List Line) : List Line :=
  if file.length < st.last_pos then file else file.drop st.last_pos

/-- The held throughput sample a refresh starts from: cleared on
truncation, else the cached one. -/
def held_init (st : LogState) (file : List Line) : Option (Int × ℚ) :=
  if file.length < st.last_pos then none else st.latest_rate

/-- First strict maximum by `Prod.fst`, seeded with an optional held
element (which, being first, wins ties). -/
def first_max_from {α K : Type} [LinearOrder K] (κ : α → K) (init : Option α) (l : List α) :
    Option α :=
  match init with
  | none => first_max_by κ l
  | some a => some (l.foldl (fun acc x => if κ acc < κ x then x else acc) a)

/-- A log line that is only a rate sample (used for the window-boundary
statements): timestamp `ts`, value `v`, unit `u`, raw string `raw`, and no
AppID/depot/lifecycle content. -/
def mk_rate_line (ts : Int) (v : ℚ) (u : RateUnit) (raw : String) : Line :=
  { rate := some { ts := ts, value := v, unit := u, raw := raw },
    appIds := [], depots := [], depotMap := none, lcTs := none, lcKind := none }

/-- A log line that is only a lifecycle event for `app` at `ts` of kind `k`. -/
def mk_lc_line (app : Int) (ts : Int) (k : EType) : Line :=
  { rate := none, appIds := [app], depots := [], depotMap := none,
    lcTs := some ts, lcKind := some k }

/-- C1, written from the claim's words: among rate entries sorted
newest-first, the app of the first entry that is within MAX_AGE_SEC of now
and has no pause event of that app strictly newer than it and itself within
the window; if none qualifies, among apps whose latest retained event is a
start/network within the window with no strictly-later in-window pause,
the app with the most recent such qualifying event; else none. (Ties —
equal rate timestamps, equal event timestamps within an app, equal
qualifying times across apps — are resolved the way the stable sorts of the
code resolve them: first stored wins across entries and apps, last stored
wins for an app's latest event.) -/
def spec_most_recent_active (st : LogState) (now : Int) : Option Int :=
  ((List.insertionSort (key_rev RateEntry.ts) st.rate_entries).find? (fun e =>
      decide (now - e.ts ≤ MAX_AGE_SEC) &&
      !((dict_get_d st.recent_events e.app_id []).any (fun ev =>
          decide (ev.etype = EType.pause) && decide (e.ts < ev.ts) &&
          decide (now - ev.ts ≤ MAX_AGE_SEC))))).elim
    (let qualifying : List (Int × Int) := st.recent_events.filterMap (fun p =>
      (last_max_by Event.ts p.2).elim none (fun latest =>
        if ((decide (latest.etype = EType.start) || decide (latest.etype = EType.network)) &&
            decide (now - latest.ts ≤ MAX_AGE_SEC)) &&
            !(p.2.any (fun ev =>
                decide (ev.etype = EType.pause) && decide (latest.ts < ev.ts) &&
                decide (now - ev.ts ≤ MAX_AGE_SEC)))
        then some (latest.ts, p.1) else none))
     (first_max_by (Prod.fst : Int × Int → Int) qualifying).map (fun c => c.2))
    (fun e => some e.app_id)

/-- C2's status rule exactly as the claim states it, including its
`BytesDownloaded < BytesToDownload` guard on the download-family branch. -/
def spec_status_c2 (pause_info : Option (Int × String)) (flags : Int)
    (data : ManifestData) (speed : ℚ) : DownloadState :=
  if pause_info.isSome ∨ Int.land flags 512 ≠ 0 then DownloadState.paused
  else
    match data.bytes_to_download, data.bytes_downloaded with
    | none, _ => DownloadState.idle
    | _, none => DownloadState.idle
    | some btd, some bd =>
      if bd = btd then
        if Int.land flags (Int.lor 2097152 4194304) ≠ 0 then DownloadState.unpacking
        else if 0 < speed then DownloadState.downloading
        else DownloadState.idle
      else if bd < btd ∧ Int.land flags (Int.lor (Int.lor 256 1024) 1048576) ≠ 0 then
        if 0 < speed then DownloadState.downloading else DownloadState.paused
      else DownloadState.paused

/-- C2 amended: same rule with the download-family branch guarded by
`BytesDownloaded ≠ BytesToDownload` (which is what the code's fall-through
from the equality case implements) instead of `<`. -/
def spec_status_c2_amended (pause_info : Option (Int × String)) (flags : Int)
    (data : ManifestData) (speed : ℚ) : DownloadState :=
  if pause_info.isSome ∨ Int.land flags 512 ≠ 0 then DownloadState.paused
  else
    match data.bytes_to_download, data.bytes_downloaded with
    | none, _ => DownloadState.idle
    | _, none => DownloadState.idle
    | some btd, some bd =>
      if bd = btd then
        if Int.land flags (Int.lor 2097152 4194304) ≠ 0 then DownloadState.unpacking
        else if 0 < speed then DownloadState.downloading
        else DownloadState.idle
      else if bd ≠ btd ∧ Int.land flags (Int.lor (Int.lor 256 1024) 1048576) ≠ 0 then
        if 0 < speed then DownloadState.downloading else DownloadState.paused
      else DownloadState.paused

/-- C4's bucketing exactly as the claim states it: paused on recent pause
or flag 512; active on download-family flags with strict byte progress;
paused otherwise (no manifest is dropped between the buckets). -/
def spec_fallback_classify_c4 (paused_sig : Int → Bool) (m : ManifestFile) :
    Option (Bool × ℚ × ACFData) :=
  match m.parsed with
  | none => none
  | some d =>
    if d.appid = 0 then none
    else if paused_sig d.appid || decide (Int.land (state_flags_of d) 512 ≠ 0) then
      some (false, m.mtime, d)
    else if decide (Int.land (state_flags_of d) (Int.lor (Int.lor 256 1024) 1048576) ≠ 0) &&
        (match d.bytes_to_download, d.bytes_downloaded with
         | some btd, some bd => decide (bd < btd)
         | _, _ => false) then
      some (true, m.mtime, d)
    else some (false, m.mtime, d)

/-- The resolver output the C4 claim describes, over a given bucketing:
the most-recently-modified manifest of the active bucket, else of the
paused bucket, else none. -/
def spec_fallback_resolve (classify : ManifestFile → Option (Bool × ℚ × ACFData))
    (manifests : List ManifestFile) : Option ACFData :=
  ((first_max_by (Prod.fst : ℚ × ACFData → ℚ)
      (manifests.filterMap (bucket_entry true classify))).elim
    ((first_max_by (Prod.fst : ℚ × ACFData → ℚ)
        (manifests.filterMap (bucket_entry false classify))).map (fun p => p.2))
    (fun a => some a.2))

/-- C6 amended, the justification predicate: `a` is backed by a rate entry
of `a` at most MAX_AGE_SEC old, or by a start/network event of `a` at most
MAX_AGE_SEC old. -/
def justified_recent (st : LogState) (now : Int) (a : Int) : Bool :=
  st.rate_entries.any (fun e =>
      decide (e.app_id = a) && decide (now - e.ts ≤ MAX_AGE_SEC)) ||
  st.recent_events.any (fun p =>
      decide (p.1 = a) && p.2.any (fun ev =>
        decide (now - ev.ts ≤ MAX_AGE_SEC) &&
        (decide (ev.etype = EType.start) || decide (ev.etype = EType.network))))

theorem foldl_pick {α K : Type} [LinearOrder K] (κ : α → K) (t : List α) :
    ∀ a : α,
      t.foldl (fun acc x => if κ acc < κ x then x else acc) a =
        (first_max_by κ t).elim a (fun m => if κ a < κ m then m else a) := by
  induction t with
  | nil => intro a; simp [first_max_by]
  | cons x t ih =>
    intro a
    simp only [List.foldl_cons, first_max_by, Option.elim_some]
    rw [ih, ih x]
    rcases h : first_max_by κ t with _ | m
    · simp only [Option.elim_none]
    · simp only [Option.elim_some]
      by_cases hxm : κ x < κ m
      · by_cases hax : κ a < κ x
        · simp [hax, hxm, lt_trans hax hxm]
        · simp [hax, hxm]
      · by_cases hax : κ a < κ x
        · simp only [if_pos hax, if_neg hxm, if_pos hax]
        · have hma : ¬ κ a < κ m := fun hc => hax (lt_of_lt_of_le hc (not_lt.mp hxm))
          simp [hax, hxm, hma]

theorem head_insertionSort_key_rev {α K : Type} [LinearOrder K] (κ : α → K) :
    ∀ l : List α, (List.insertionSort (key_rev κ) l).head? = first_max_by κ l := by
  intro l
  induction l with
  | nil => simp [first_max_by]
  | cons a t ih =>
    simp only [List.insertionSort]
    rcases hs : List.insertionSort (key_rev κ) t with _ | ⟨m, s⟩
    · have ht : t = [] := by
        have hp := List.perm_insertionSort (key_rev κ) t
        rw [hs] at hp
        exact hp.symm.eq_nil
      subst ht
      simp [List.orderedInsert, first_max_by]
    · have hm : first_max_by κ t = some m := by
        rw [hs] at ih
        simpa using ih.symm
      simp only [List.orderedInsert, first_max_by]
      rw [foldl_pick, hm]
      simp only [Option.elim_some]
      by_cases hab : key_rev κ a m
      · rw [if_pos hab]
        simp only [key_rev] at hab
        simp only [List.head?_cons]
        rw [if_neg (not_lt.mpr hab)]
      · rw [if_neg hab]
        simp only [key_rev] at hab
        simp only [List.head?_cons]
        rw [if_pos (not_le.mp hab)]

theorem mem_of_getLast?_eq {α : Type} {l : List α} {a : α} (h : l.getLast? = some a) :
    a ∈ l := by
  rcases List.mem_getLast?_eq_getLast (Option.mem_def.mpr h) with ⟨hne, ha⟩
  rw [ha]
  exact List.getLast_mem hne

theorem getLast_orderedInsert_key_asc {α K : Type} [LinearOrder K] (κ : α → K) (a : α) :
    ∀ s : List α, List.Sorted (key_asc κ) s →
      (List.orderedInsert (key_asc κ) a s).getLast? =
        some ((s.getLast?).elim a (fun m => if κ m < κ a then a else m)) := by
  intro s
  induction s with
  | nil => intro _; simp [List.orderedInsert]
  | cons m s' ih =>
    intro hsorted
    have hs' : List.Sorted (key_asc κ) s' := (List.sorted_cons.mp hsorted).2
    have hrel : ∀ b ∈ s', key_asc κ m b := (List.sorted_cons.mp hsorted).1
    simp only [List.orderedInsert]
    by_cases ham : key_asc κ a m
    · rw [if_pos ham]
      rcases hlast : (m :: s').getLast? with _ | lastEl
      · simp [List.getLast?_eq_none_iff] at hlast
      · have hmem : lastEl ∈ m :: s' := mem_of_getLast?_eq hlast
        have hge : κ a ≤ κ lastEl := by
          rcases List.mem_cons.mp hmem with hEq | hIn
          · rw [hEq]; exact ham
          · exact le_trans ham (hrel lastEl hIn)
        rw [List.getLast?_cons_cons, hlast]
        simp only [Option.elim_some]
        rw [if_neg (not_lt.mpr hge)]
    · rw [if_neg ham]
      simp only [key_asc] at ham
      have hma : κ m < κ a := not_le.mp ham
      rcases s' with _ | ⟨x, xs⟩
      · simp only [List.orderedInsert, List.getLast?_cons_cons]
        simp [hma]
      · rcases hOI : List.orderedInsert (key_asc κ) a (x :: xs) with _ | ⟨y, ys⟩
        · exfalso
          have := List.orderedInsert_length (key_asc κ) (x :: xs) a
          rw [hOI] at this
          simp at this
        · have ih' := ih hs'
          rw [hOI] at ih'
          rw [List.getLast?_cons_cons, ih', List.getLast?_cons_cons]

theorem getLast_insertionSort_key_asc {α K : Type} [LinearOrder K] (κ : α → K) :
    ∀ l : List α, (List.insertionSort (key_asc κ) l).getLast? = last_max_by κ l := by
  intro l
  induction l with
  | nil => simp [last_max_by]
  | cons a t ih =>
    simp only [List.insertionSort]
    rw [getLast_orderedInsert_key_asc κ a (List.insertionSort (key_asc κ) t)
      (List.sorted_insertionSort (key_asc κ) t)]
    rw [ih]
    rcases h : last_max_by κ t with _ | m
    · simp [last_max_by, h]
    · simp [last_max_by, h]

theorem any_insertionSort {α : Type} (r : α → α → Prop) [DecidableRel r] (l : List α)
    (p : α → Bool) : (List.insertionSort r l).any p = l.any p := by
  have hperm := List.perm_insertionSort r l
  cases h1 : (List.insertionSort r l).any p <;> cases h2 : l.any p
  · rfl
  · exfalso
    rcases List.any_eq_true.mp h2 with ⟨x, hx, hpx⟩
    have : (List.insertionSort r l).any p = true :=
      List.any_eq_true.mpr ⟨x, hperm.mem_iff.mpr hx, hpx⟩
    rw [h1] at this
    cases this
  · exfalso
    rcases List.any_eq_true.mp h1 with ⟨x, hx, hpx⟩
    have : l.any p = true := List.any_eq_true.mpr ⟨x, hperm.mem_iff.mp hx, hpx⟩
    rw [h2] at this
    cases this
  · rfl

theorem most_recent_core_eq_spec (now : Int) (st : LogState) :
    get_most_recent_active_download_core now st = spec_most_recent_active st now := by
  simp only [get_most_recent_active_download_core, spec_most_recent_active,
    any_insertionSort, getLast_insertionSort_key_asc, head_insertionSort_key_rev]

/-- C1: for every engine state, `get_most_recent_active_download` returns:
among RateEntry records sorted newest-first, the app_id of the first entry
within 180s of now with no strictly-newer in-window pause event of that
app; else the app whose latest retained lifecycle event is a start/network
within 180s with no later in-window pause, most recent first; else none.
In particular a start at t−30s followed by a pause at t−10s resolves to
none. -/
theorem c1_most_recent_active_download :
    (∀ (st : LogState) (file : List Line) (now : Int),
        get_most_recent_active_download st file now =
          spec_most_recent_active (update_log_state st file now) now) ∧
    get_most_recent_active_download init_state
        [mk_lc_line 12345 70 EType.start, mk_lc_line 12345 90 EType.pause] 100 = none := by
  constructor
  · intro st file now
    exact most_recent_core_eq_spec now (update_log_state st file now)
  · decide

theorem get_status_pure_eq_c2_amended (pi : Option (Int × String)) (flags : Int)
    (data : ManifestData) (speed : ℚ) :
    get_status_pure pi flags data speed = spec_status_c2_amended pi flags data speed := by
  rcases data with ⟨_ | b1, _ | b2⟩ <;>
    simp only [get_status_pure, spec_status_c2_amended] <;>
    by_cases h1 : pi.isSome <;> by_cases h2 : Int.land flags 512 ≠ 0 <;>
      simp [h1, h2]
  by_cases h3 : b1 = b2
  · simp [h3]
  · have h3' : ¬ b2 = b1 := fun h => h3 h.symm
    simp [h3, h3']

/-- C2 counterexample: with no pause signal, flags 256 (download-family),
BytesToDownload = 1 strictly less than BytesDownloaded = 2 and speed 1, the
code classifies `downloading`, while the claim's rule (whose download-family
branch requires BytesDownloaded < BytesToDownload) yields `paused`. -/
theorem c2_get_status_counterexample :
    get_status init_state [] 0 256 ⟨some 1, some 2⟩ 1 7 = DownloadState.downloading ∧
    spec_status_c2 none 256 ⟨some 1, some 2⟩ 1 = DownloadState.paused ∧
    DownloadState.downloading ≠ DownloadState.paused := by
  refine ⟨?_, ?_, ?_⟩ <;> decide

/-- C2 amended: `get_status` classifies as the claim states except that the
download-family branch applies whenever the byte counts differ (not only
when BytesDownloaded < BytesToDownload): paused on a pause signal or flag
512; idle on missing byte fields; on equal bytes unpacking with flags
2097152|4194304, else downloading iff speed > 0, else idle; on differing
bytes with flags 256|1024|1048576 downloading iff speed > 0 else paused;
else paused. -/
theorem c2_get_status_amended :
    ∀ (st : LogState) (file : List Line) (now : Int) (flags : Int) (data : ManifestData)
      (speed : ℚ) (app_id : Int),
      get_status st file now flags data speed app_id =
        spec_status_c2_amended ((get_recent_pause_info st file now app_id).1) flags data speed :=
  fun _ _ _ flags data speed _ => get_status_pure_eq_c2_amended _ flags data speed

theorem latest_rate_process_depot (st : LogState) (ln : Line) :
    (process_depot st ln).latest_rate = st.latest_rate := by
  rcases hd : ln.depotMap with _ | da <;> simp [process_depot, hd]

theorem latest_rate_process_lifecycle (now : Int) (st : LogState) (ln : Line) :
    (process_lifecycle now st ln).latest_rate = st.latest_rate := by
  rcases ha : ln.appIds with _ | ⟨a, rest⟩
  · simp [process_lifecycle, ha]
  · rcases ht : ln.lcTs with _ | ts
    · simp [process_lifecycle, ha, ht]
    · rcases hk : ln.lcKind with _ | k
      · simp [process_lifecycle, ha, ht, hk]
      · simp only [process_lifecycle, ha, ht, hk]
        split_ifs <;> rfl

theorem latest_rate_process_rate (st : LogState) (ln : Line) :
    (process_rate st ln).latest_rate =
      (ln.rate).elim st.latest_rate
        (fun r => rate_step st.latest_rate (r.ts, convert_rate r.value r.unit)) := by
  rcases hr : ln.rate with _ | r
  · simp [process_rate, hr]
  · simp only [process_rate, hr, Option.elim_some]
    rcases hl : st.latest_rate with _ | lr
    · simp [rate_step, hl]
    · simp only [rate_step, hl]
      by_cases hlt : lr.1 < r.ts
      · simp [hlt]
      · simp [hlt, hl]

theorem latest_rate_process_line (now : Int) (st : LogState) (ln : Line) :
    (process_line now st ln).latest_rate =
      (accepted_rate now ln).elim st.latest_rate (fun s => rate_step st.latest_rate s) := by
  unfold process_line
  by_cases hst : rate_stale now ln
  · rw [if_pos hst]
    rcases hr : ln.rate with _ | r
    · simp [rate_stale, hr] at hst
    · have hstale : ¬ (now - r.ts ≤ MAX_AGE_SEC) := by
        simp only [rate_stale, hr, decide_eq_true_eq] at hst
        exact not_le.mpr hst
      simp [accepted_rate, hr, hstale]
  · rw [if_neg hst]
    rw [latest_rate_process_lifecycle, latest_rate_process_depot, latest_rate_process_rate]
    rcases hr : ln.rate with _ | r
    · simp [accepted_rate, hr]
    · have hfresh : now - r.ts ≤ MAX_AGE_SEC := by
        simp only [rate_stale, hr, decide_eq_true_eq] at hst
        exact not_lt.mp hst
      simp [accepted_rate, hr, hfresh]

theorem latest_rate_process_lines (now : Int) :
    ∀ (lines : List Line) (st : LogState),
      (process_lines now st lines).latest_rate =
        (accepted_rates now lines).foldl rate_step st.latest_rate := by
  intro lines
  induction lines with
  | nil => intro st; simp [process_lines, accepted_rates]
  | cons ln rest ih =>
    intro st
    have hstep : process_lines now st (ln :: rest) =
        process_lines now (process_line now st ln) rest := by
      simp [process_lines]
    rw [hstep, ih]
    rw [latest_rate_process_line]
    rcases hacc : accepted_rate now ln with _ | s
    · simp [accepted_rates, hacc]
    · simp [accepted_rates, hacc]

theorem foldl_rate_step :
    ∀ (l : List (Int × ℚ)) (init : Option (Int × ℚ)),
      l.foldl rate_step init = first_max_from Prod.fst init l := by
  intro l
  induction l with
  | nil => intro init; rcases init with _ | c <;> simp [first_max_from, first_max_by]
  | cons s t ih =>
    intro init
    rcases init with _ | c
    · simp only [List.foldl_cons, rate_step]
      rw [ih (some s)]
      simp [first_max_from, first_max_by]
    · simp only [List.foldl_cons, rate_step]
      by_cases h : c.1 < s.1
      · rw [if_pos h, ih (some s)]
        simp [first_max_from, first_max_by, List.foldl_cons, h]
      · rw [if_neg h, ih (some c)]
        simp [first_max_from, first_max_by, List.foldl_cons, h]

theorem latest_rate_prune (now : Int) (st : LogState) :
    (prune_state now st).latest_rate = st.latest_rate := rfl

theorem latest_rate_after_update (st : LogState) (file : List Line) (now : Int) :
    (update_log_state st file now).latest_rate =
      first_max_from Prod.fst (held_init st file)
        (accepted_rates now (processed_lines st file)) := by
  unfold update_log_state held_init processed_lines
  by_cases htr : file.length < st.last_pos
  · rw [if_pos (Or.inl htr), if_pos htr, if_pos htr]
    rw [latest_rate_prune, latest_rate_process_lines, foldl_rate_step]
  · have hcond : ¬ (file.length < st.last_pos ∨ (false : Bool) = true) := by
      simp [htr]
    rw [if_neg hcond, if_neg htr, if_neg htr]
    by_cases hstop : (file.drop st.last_pos).isEmpty
    · rw [if_pos hstop]
      have hdrop : file.drop st.last_pos = [] := List.isEmpty_iff.mp hstop
      rw [hdrop]
      rcases hl : st.latest_rate with _ | c <;>
        simp [first_max_from, first_max_by, accepted_rates, hl]
    · rw [if_neg hstop]
      rw [latest_rate_prune, latest_rate_process_lines, foldl_rate_step]

/-- C3: after every refresh `latest_rate` holds the accepted sample with
the newest timestamp (first-seen wins ties, the previously held sample
counting as first), where a rate line is accepted only when at most 180s
old (now−181s excluded, now−179s included — an excluded rate line is
skipped entirely), values convert as KB/s×1024, MB/s×1024², Mbps×10⁶/8,
a strictly newer accepted timestamp replaces the held sample while an
equal one keeps it, and `read_latest_speed` filters the held sample
against the 180s window at read time. -/
theorem c3_latest_throughput :
    (∀ (st : LogState) (file : List Line) (now : Int),
        (update_log_state st file now).latest_rate =
          first_max_from Prod.fst (held_init st file)
            (accepted_rates now (processed_lines st file))) ∧
    (∀ v : ℚ, convert_rate v RateUnit.kbs = v * 1024) ∧
    (∀ v : ℚ, convert_rate v RateUnit.mbs = v * 1024 * 1024) ∧
    (∀ v : ℚ, convert_rate v RateUnit.mbps = v * 1000000 / 8) ∧
    (∀ (now : Int) (st : LogState) (v : ℚ) (u : RateUnit) (raw : String),
        process_line now st (mk_rate_line (now - 181) v u raw) = st) ∧
    (∀ (now : Int) (v : ℚ) (u : RateUnit) (raw : String),
        accepted_rate now (mk_rate_line (now - 179) v u raw) =
          some (now - 179, convert_rate v u)) ∧
    (∀ s : Int × ℚ, rate_step none s = some s) ∧
    (∀ c s : Int × ℚ, rate_step (some c) s = if c.1 < s.1 then some s else some c) ∧
    (∀ (st : LogState) (file : List Line) (now : Int),
        read_latest_speed st file now =
          ((update_log_state st file now).latest_rate).filter
            (fun p => decide (now - p.1 ≤ MAX_AGE_SEC))) := by
  refine ⟨latest_rate_after_update, fun v => rfl, fun v => rfl, fun v => rfl, ?_, ?_,
    fun s => rfl, fun c s => rfl, ?_⟩
  · intro now st v u raw
    have hstale : rate_stale now (mk_rate_line (now - 181) v u raw) = true := by
      simp only [rate_stale, mk_rate_line]
      apply decide_eq_true
      unfold MAX_AGE_SEC
      omega
    simp [process_line, hstale]
  · intro now v u raw
    have h179 : now - (now - 179) ≤ MAX_AGE_SEC := by unfold MAX_AGE_SEC; omega
    simp only [accepted_rate, mk_rate_line]
    rw [if_pos h179]
  · intro st file now
    unfold read_latest_speed
    rcases h : (update_log_state st file now).latest_rate with _ | lr
    · simp [Option.filter, h]
    · by_cases hc : now - lr.1 ≤ MAX_AGE_SEC <;> simp [Option.filter, h, hc]

theorem last_pos_process_rate (st : LogState) (ln : Line) :
    (process_rate st ln).last_pos = st.last_pos := by
  rcases hr : ln.rate with _ | r
  · simp [process_rate, hr]
  · simp only [process_rate, hr]
    rcases hl : st.latest_rate with _ | lr
    · simp
    · by_cases hlt : lr.1 < r.ts <;> simp [hlt]

theorem last_pos_process_depot (st : LogState) (ln : Line) :
    (process_depot st ln).last_pos = st.last_pos := by
  rcases hd : ln.depotMap with _ | da <;> simp [process_depot, hd]

theorem last_pos_process_lifecycle (now : Int) (st : LogState) (ln : Line) :
    (process_lifecycle now st ln).last_pos = st.last_pos := by
  rcases ha : ln.appIds with _ | ⟨a, rest⟩
  · simp [process_lifecycle, ha]
  · rcases ht : ln.lcTs with _ | ts
    · simp [process_lifecycle, ha, ht]
    · rcases hk : ln.lcKind with _ | k
      · simp [process_lifecycle, ha, ht, hk]
      · simp only [process_lifecycle, ha, ht, hk]
        split_ifs <;> rfl

theorem last_pos_process_line (now : Int) (st : LogState) (ln : Line) :
    (process_line now st ln).last_pos = st.last_pos := by
  unfold process_line
  by_cases h : rate_stale now ln
  · rw [if_pos h]
  · rw [if_neg h, last_pos_process_lifecycle, last_pos_process_depot, last_pos_process_rate]

theorem last_pos_process_lines (now : Int) :
    ∀ (lines : List Line) (st : LogState),
      (process_lines now st lines).last_pos = st.last_pos := by
  intro lines
  induction lines with
  | nil => intro st; rfl
  | cons ln rest ih =>
    intro st
    have hstep : process_lines now st (ln :: rest) =
        process_lines now (process_line now st ln) rest := by
      simp [process_lines]
    rw [hstep, ih, last_pos_process_line]

theorem last_pos_prune (now : Int) (st : LogState) :
    (prune_state now st).last_pos = st.last_pos := rfl

/-- C5: every refresh leaves the cursor at the current file size, so across
refreshes on a fixed log the cursor never decreases — except that when the
current size is strictly below the cursor the refresh behaves exactly like
a full reload from the pristine state: cursor reset, every derived index
cleared, the whole file re-parsed, and the resulting state therefore
reflects only the current file content. -/
theorem c5_cursor_monotone_truncation_reload :
    ∀ (st : LogState) (file : List Line) (now : Int),
      (update_log_state st file now).last_pos = file.length ∧
      (st.last_pos ≤ (update_log_state st file now).last_pos ∨
        (file.length < st.last_pos ∧
          update_log_state st file now = update_log_state init_state file now true)) := by
  intro st file now
  by_cases htr : file.length < st.last_pos
  · have hbranch : update_log_state st file now =
        prune_state now (process_lines now
          { last_pos := file.length, latest_rate := none, recent_events := [],
            depot_to_app := [], rate_entries := [] } file) := by
      unfold update_log_state
      rw [if_pos (Or.inl htr)]
    have hfull : update_log_state init_state file now true =
        prune_state now (process_lines now
          { last_pos := file.length, latest_rate := none, recent_events := [],
            depot_to_app := [], rate_entries := [] } file) := by
      unfold update_log_state
      rw [if_pos (Or.inr rfl)]
    constructor
    · rw [hbranch, last_pos_prune, last_pos_process_lines]
    · exact Or.inr ⟨htr, by rw [hbranch, hfull]⟩
  · have hcond : ¬ (file.length < st.last_pos ∨ (false : Bool) = true) := by
      simp [htr]
    have hpos : (update_log_state st file now).last_pos = file.length := by
      unfold update_log_state
      rw [if_neg hcond]
      by_cases hstop : (file.drop st.last_pos).isEmpty
      · rw [if_pos hstop]
      · rw [if_neg hstop, last_pos_prune, last_pos_process_lines]
    refine ⟨hpos, Or.inl ?_⟩
    rw [hpos]
    exact not_lt.mp htr

theorem dict_get_dict_set_self {α β : Type} [DecidableEq α] (d : List (α × β)) (k : α)
    (v : β) : dict_get (dict_set d k v) k = some v := by
  induction d with
  | nil => simp [dict_get, dict_set, List.find?]
  | cons p d ih =>
    by_cases h : p.1 = k
    · simp [dict_set, h, dict_get, List.find?]
    · have hd : decide (p.1 = k) = false := decide_eq_false h
      simp only [dict_set, if_neg h, dict_get, List.find?_cons, hd]
      exact ih

/-- The log file of the C7 counterexample: a start for app 1 at t=0, then a
pause for app 1 at t=10 — chronological in the file. -/
def c7_file : List Line := [mk_lc_line 1 0 EType.start, mk_lc_line 1 10 EType.pause]

/-- C7 counterexample: after a full load of `c7_file` the retained list for
app 1 is chronological, but one `get_recent_pause_info` query re-sorts it
in place to newest-first, so the retained list is no longer in
chronological (oldest-first) order. -/
theorem c7_counterexample :
    dict_get ((get_recent_pause_info init_state c7_file 10 1).2).recent_events 1 =
      some [⟨10, EType.pause⟩, ⟨0, EType.start⟩] ∧
    ¬ List.Pairwise (fun a b : Event => a.ts ≤ b.ts)
        [(⟨10, EType.pause⟩ : Event), ⟨0, EType.start⟩] := by
  constructor
  · decide
  · decide

theorem pause_info_core_sorts (st1 : LogState) (app_id : Int) :
    List.Pairwise (fun a b : Event => b.ts ≤ a.ts)
      ((dict_get ((get_recent_pause_info_core st1 app_id).2).recent_events app_id).getD []) ∧
    ((dict_get ((get_recent_pause_info_core st1 app_id).2).recent_events app_id).getD []).Perm
      ((dict_get st1.recent_events app_id).getD []) := by
  unfold get_recent_pause_info_core
  rcases hg : dict_get st1.recent_events app_id with _ | events
  · simp [hg]
  · by_cases he : events.isEmpty
    · have hnil : events = [] := List.isEmpty_iff.mp he
      simp [hg, he, hnil]
    · simp only [he, if_neg, Bool.false_eq_true, if_false]
      rcases hs : List.insertionSort (key_rev Event.ts) events with _ | ⟨e, es⟩
      · have : events = [] := by
          have hp := List.perm_insertionSort (key_rev Event.ts) events
          rw [hs] at hp
          exact hp.symm.eq_nil
        rw [this] at he
        simp at he
      · have hsorted : List.Sorted (key_rev Event.ts) (e :: es) := by
          rw [← hs]
          exact List.sorted_insertionSort (key_rev Event.ts) events
        have hperm : (e :: es).Perm events := by
          rw [← hs]
          exact List.perm_insertionSort (key_rev Event.ts) events
        have hget : dict_get (dict_set st1.recent_events app_id (e :: es)) app_id =
            some (e :: es) := dict_get_dict_set_self st1.recent_events app_id (e :: es)
        constructor
        · simp only [hget, Option.getD_some]
          exact hsorted.imp (fun h => h)
        · simp only [hget, hg, Option.getD_some]
          exact hperm

/-- C7 amended: the per-app event lists are appended in log order, not kept
chronological; a `get_recent_pause_info` query re-sorts the queried app's
retained list in place, leaving it in newest-first (reverse-chronological)
order — a permutation of what the refresh had retained. -/
theorem c7_amended_pause_query_sorts_desc :
    ∀ (st : LogState) (file : List Line) (now : Int) (app_id : Int),
      List.Pairwise (fun a b : Event => b.ts ≤ a.ts)
        ((dict_get ((get_recent_pause_info st file now app_id).2).recent_events app_id).getD
          []) ∧
      ((dict_get ((get_recent_pause_info st file now app_id).2).recent_events app_id).getD
          []).Perm
        ((dict_get (update_log_state st file now).recent_events app_id).getD []) :=
  fun st file now app_id => pause_info_core_sorts (update_log_state st file now) app_id

/-- The log file of the C6 counterexample: one pause event for app 1 at
t=0. -/
def c6_file : List Line := [mk_lc_line 1 0 EType.pause]

/-- C6 counterexample: refresh at t=0 retains the pause event; at t=4000
the lazy refresh sees no new content and early-returns before its prune
pass, and `get_recent_pause_info` — which applies no age gate of its own —
returns the pause event even though it is 4000s old, beyond the 3600s
retention window. -/
theorem c6_counterexample :
    (get_recent_pause_info (update_log_state init_state c6_file 0) c6_file 4000 1).1 =
      some (0, "paused") ∧
    PRUNE_AGE_SEC < 4000 - 0 := by
  constructor
  · decide
  · decide

theorem mem_of_head?_eq {α : Type} {l : List α} {c : α} (h : l.head? = some c) : c ∈ l := by
  cases l with
  | nil => cases h
  | cons x xs =>
    simp only [List.head?_cons, Option.some.injEq] at h
    rw [← h]
    exact List.mem_cons_self x xs

theorem mem_of_last_max_by {α K : Type} [LinearOrder K] (κ : α → K) :
    ∀ (l : List α) (m : α), last_max_by κ l = some m → m ∈ l := by
  intro l
  induction l with
  | nil => intro m h; cases h
  | cons a t ih =>
    intro m h
    simp only [last_max_by] at h
    rcases ht : last_max_by κ t with _ | m'
    · rw [ht] at h
      simp only [Option.some.injEq] at h
      rw [← h]
      exact List.mem_cons_self a t
    · rw [ht] at h
      simp only [Option.some.injEq] at h
      by_cases hlt : κ m' < κ a
      · rw [if_pos hlt] at h
        rw [← h]
        exact List.mem_cons_self a t
      · rw [if_neg hlt] at h
        rw [← h]
        exact List.mem_cons_of_mem a (ih m' ht)

theorem most_recent_core_justified (now : Int) (st1 : LogState) (a : Int)
    (ha : get_most_recent_active_download_core now st1 = some a) :
    justified_recent st1 now a = true := by
  simp only [get_most_recent_active_download_core] at ha
  rcases hf : (List.insertionSort (key_rev RateEntry.ts) st1.rate_entries).find? (fun e =>
      decide (now - e.ts ≤ MAX_AGE_SEC) &&
      !((List.insertionSort (key_asc Event.ts) (dict_get_d st1.recent_events e.app_id [])).any
          (fun ev =>
            decide (ev.etype = EType.pause) && decide (e.ts < ev.ts) &&
            decide (now - ev.ts ≤ MAX_AGE_SEC)))) with _ | e
  · rw [hf] at ha
    simp only [Option.elim_none] at ha
    rcases hh : (List.insertionSort (key_rev (Prod.fst : Int × Int → Int))
        (st1.recent_events.filterMap (fun p =>
          let sorted_events := List.insertionSort (key_asc Event.ts) p.2
          (sorted_events.getLast?).elim none (fun last =>
            if ((decide (last.etype = EType.start) || decide (last.etype = EType.network)) &&
                decide (now - last.ts ≤ MAX_AGE_SEC)) &&
                !(sorted_events.any (fun ev =>
                    decide (ev.etype = EType.pause) && decide (last.ts < ev.ts) &&
                    decide (now - ev.ts ≤ MAX_AGE_SEC)))
            then some (last.ts, p.1) else none)))).head? with _ | c
    · rw [hh] at ha
      cases ha
    · rw [hh] at ha
      have ha2 : c.2 = a := by simpa using ha
      have hcmem := mem_of_head?_eq hh
      have hcands : c ∈ st1.recent_events.filterMap (fun p =>
          let sorted_events := List.insertionSort (key_asc Event.ts) p.2
          (sorted_events.getLast?).elim none (fun last =>
            if ((decide (last.etype = EType.start) || decide (last.etype = EType.network)) &&
                decide (now - last.ts ≤ MAX_AGE_SEC)) &&
                !(sorted_events.any (fun ev =>
                    decide (ev.etype = EType.pause) && decide (last.ts < ev.ts) &&
                    decide (now - ev.ts ≤ MAX_AGE_SEC)))
            then some (last.ts, p.1) else none)) :=
        (List.perm_insertionSort _ _).mem_iff.mp hcmem
      rcases List.mem_filterMap.mp hcands with ⟨p, hpmem, hpeq⟩
      simp only [getLast_insertionSort_key_asc, any_insertionSort] at hpeq
      rcases hlm : last_max_by Event.ts p.2 with _ | latest
      · rw [hlm] at hpeq
        cases hpeq
      · rw [hlm] at hpeq
        simp only [Option.elim_some] at hpeq
        by_cases hcond : (((decide (latest.etype = EType.start) ||
            decide (latest.etype = EType.network)) &&
            decide (now - latest.ts ≤ MAX_AGE_SEC)) &&
            !(p.2.any (fun ev =>
                decide (ev.etype = EType.pause) && decide (latest.ts < ev.ts) &&
                decide (now - ev.ts ≤ MAX_AGE_SEC)))) = true
        · rw [if_pos hcond] at hpeq
          simp only [Option.some.injEq] at hpeq
          have hlatest_mem : latest ∈ p.2 := mem_of_last_max_by Event.ts p.2 latest hlm
          simp only [Bool.and_eq_true, Bool.or_eq_true, decide_eq_true_eq] at hcond
          obtain ⟨⟨hkind, hage⟩, _⟩ := hcond
          have hap : p.1 = a := by
            rw [← hpeq] at ha2
            simpa using ha2
          simp only [justified_recent, Bool.or_eq_true, List.any_eq_true, Bool.and_eq_true,
            decide_eq_true_eq]
          right
          exact ⟨p, hpmem, hap, latest, hlatest_mem, hage, hkind⟩
        · rw [if_neg hcond] at hpeq
          cases hpeq
  · rw [hf] at ha
    simp only [Option.elim_some, Option.some.injEq] at ha
    have hpred := List.find?_some hf
    simp only [Bool.and_eq_true, decide_eq_true_eq] at hpred
    have hmem : e ∈ st1.rate_entries :=
      (List.perm_insertionSort _ _).mem_iff.mp (List.mem_of_find?_eq_some hf)
    simp only [justified_recent, Bool.or_eq_true, List.any_eq_true, Bool.and_eq_true,
      decide_eq_true_eq]
    left
    exact ⟨e, hmem, ha, hpred.1⟩

/-- C6 amended: `read_latest_speed` and `get_most_recent_active_download`
gate every read at the 180s staleness window, so neither ever returns an
entry — or an app not backed by an entry — within the window (and a
fortiori none older than the 3600s retention window); `get_recent_pause_info`
however applies no age gate of its own and can return a pause event older
than 3600s when a refresh early-returns before its prune pass. -/
theorem c6_amended_staleness_gates :
    (∀ (st : LogState) (file : List Line) (now : Int),
        (read_latest_speed st file now).all
          (fun p => decide (now - p.1 ≤ MAX_AGE_SEC)) = true) ∧
    (∀ (st : LogState) (file : List Line) (now : Int),
        (get_most_recent_active_download st file now).all
          (fun a => justified_recent (update_log_state st file now) now a) = true) := by
  constructor
  · intro st file now
    simp only [read_latest_speed]
    rcases h : (update_log_state st file now).latest_rate with _ | lr
    · rfl
    · by_cases hc : now - lr.1 ≤ MAX_AGE_SEC
      · simp [hc]
        omega
      · simp [hc]
  · intro st file now
    rcases h : get_most_recent_active_download st file now with _ | a
    · rfl
    · simp only [Option.all_some]
      exact most_recent_core_justified now (update_log_state st file now) a h

theorem fallback_buckets (paused_sig : Int → Bool) :
    ∀ (ms : List ManifestFile) (act pau : List (ℚ × ACFData)),
      ms.foldl (fallback_step paused_sig) (act, pau) =
        (act ++ ms.filterMap (bucket_entry true (fallback_classify paused_sig)),
         pau ++ ms.filterMap (bucket_entry false (fallback_classify paused_sig))) := by
  intro ms
  induction ms with
  | nil => intro act pau; simp
  | cons m ms ih =>
    intro act pau
    simp only [List.foldl_cons]
    rw [show fallback_step paused_sig (act, pau) m =
      (act ++ (bucket_entry true (fallback_classify paused_sig) m).toList,
       pau ++ (bucket_entry false (fallback_classify paused_sig) m).toList) from rfl]
    rw [ih]
    rcases ha : bucket_entry true (fallback_classify paused_sig) m with _ | ea <;>
      rcases hp : bucket_entry false (fallback_classify paused_sig) m with _ | ep <;>
      simp [List.filterMap_cons, ha, hp]

theorem fallback_eq_spec_resolve (manifests : List ManifestFile) (paused_sig : Int → Bool) :
    find_active_game_fallback manifests paused_sig =
      spec_fallback_resolve (fallback_classify paused_sig) manifests := by
  simp only [find_active_game_fallback, spec_fallback_resolve]
  rw [fallback_buckets]
  simp only [List.nil_append, head_insertionSort_key_rev]

/-- C4 counterexample: a single manifest with download-family flags (256)
but equal byte counters (5 = 5) and no pause signal. The claim's bucketing
("paused otherwise") would return it as the paused pick, but the code's
loop appends it to neither bucket, so the fallback returns none. -/
theorem c4_fallback_counterexample :
    find_active_game_fallback [⟨some ⟨1, "g", some 256, some 5, some 5⟩, 0⟩]
        (fun _ => false) = none ∧
    spec_fallback_resolve (spec_fallback_classify_c4 (fun _ => false))
        [⟨some ⟨1, "g", some 256, some 5, some 5⟩, 0⟩] =
      some ⟨1, "g", some 256, some 5, some 5⟩ := by
  constructor
  · decide
  · decide

/-- C4 amended: the fallback skips unparsable and appid-0 manifests,
buckets a manifest as paused on a recent pause signal or flag 512, as
active on download-family flags with both byte fields present and
BytesToDownload strictly greater than BytesDownloaded, buckets a manifest
with download-family flags but without such strict progress NOWHERE
(rather than paused), buckets the rest as paused, and returns the
most-recently-modified active manifest, else the most-recently-modified
paused one, else none. -/
theorem c4_fallback_amended :
    ∀ (manifests : List ManifestFile) (paused_sig : Int → Bool),
      find_active_game_fallback manifests paused_sig =
        spec_fallback_resolve (fallback_classify paused_sig) manifests :=
  fallback_eq_spec_resolve

theorem read_retry3_none_iff (attempts : Nat → Option (List Char)) :
    read_file_with_retry attempts 3 = none ↔
      (attempts 0 = none ∧ attempts 1 = none ∧ attempts 2 = none) := by
  have he : read_file_with_retry attempts 3 =
      (match attempts 0 with
       | some c => some c
       | none =>
         match attempts 1 with
         | some c => some c
         | none =>
           match attempts 2 with
           | some c => some c
           | none => none) := rfl
  rw [he]
  rcases h0 : attempts 0 with _ | c0 <;> rcases h1 : attempts 1 with _ | c1 <;>
    rcases h2 : attempts 2 with _ | c2 <;> simp

/-- C8: `parse_acf` fails with `ACFParseError` exactly when all 3 bounded
read attempts fail; on any readable content it totally returns the dict of
quoted-pair matches with both captures whitespace-trimmed — malformed
content yields zero pairs rather than an error, as on the two samples. -/
theorem c8_parse_acf_retry_and_tolerance :
    (∀ attempts : Nat → Option (List Char),
        parse_acf attempts = Except.error "ACFParseError" ↔
          (attempts 0 = none ∧ attempts 1 = none ∧ attempts 2 = none)) ∧
    (∀ attempts : Nat → Option (List Char),
        parse_acf attempts = (read_file_with_retry attempts 3).elim
          (Except.error "ACFParseError") (fun c => Except.ok (acf_parse c))) ∧
    acf_parse "no quoted pairs here".data = [] ∧
    acf_parse "\"appid\" \"730\" junk \"name\" \" My Game \"".data =
      [("appid".data, "730".data), ("name".data, "My Game".data)] := by
  refine ⟨?_, ?_, ?_, ?_⟩
  · intro attempts
    rw [← read_retry3_none_iff attempts]
    rcases hr : read_file_with_retry attempts 3 with _ | c <;> simp [parse_acf, hr]
  · intro attempts
    rcases hr : read_file_with_retry attempts 3 with _ | c <;> simp [parse_acf, hr]
  · decide
  · decide

/-- C10 counterexample: a manifest with no StateFlags key gets flags 4; with
equal byte counters and speed 1 (and no pause signal) `get_status`
classifies `downloading`, so "can only yield paused or idle" is false. -/
theorem c10_counterexample :
    get_status_pure none 4 ⟨some 100, some 100⟩ 1 = DownloadState.downloading ∧
    ¬ (get_status_pure none 4 ⟨some 100, some 100⟩ 1 = DownloadState.paused ∨
        get_status_pure none 4 ⟨some 100, some 100⟩ 1 = DownloadState.idle) := by
  constructor
  · decide
  · decide

/-- C10 amended: a parsed manifest without a StateFlags key is given the
flags value 4, which carries no paused (512), download-family
(256|1024|1048576) or unpacking (2097152|4194304) bit: the fallback
resolver always puts such a manifest into the paused bucket (unless its
appid is 0, when it is skipped), and status classification can only yield
paused, idle, or downloading — downloading exactly when there is no pause
signal, the byte counters are both present and equal, and speed > 0; never
unpacking. -/
theorem c10_missing_stateflags_amended :
    (∀ (appid : Int) (name : String) (btd bd : Option Int),
        state_flags_of ⟨appid, name, none, btd, bd⟩ = 4) ∧
    (∀ (paused_sig : Int → Bool) (appid : Int) (name : String) (btd bd : Option Int)
        (mt : ℚ),
        fallback_classify paused_sig ⟨some ⟨appid, name, none, btd, bd⟩, mt⟩ =
          if appid = 0 then none else some (false, mt, ⟨appid, name, none, btd, bd⟩)) ∧
    (∀ (pi : Option (Int × String)) (btd bd : Option Int) (speed : ℚ),
        get_status_pure pi 4 ⟨btd, bd⟩ speed ∈
          [DownloadState.paused, DownloadState.idle, DownloadState.downloading]) ∧
    (∀ (pi : Option (Int × String)) (btd bd : Option Int) (speed : ℚ),
        get_status_pure pi 4 ⟨btd, bd⟩ speed = DownloadState.downloading ↔
          (pi = none ∧ 0 < speed ∧ ∃ b : Int, btd = some b ∧ bd = some b)) := by
  have h512 : Int.land 4 512 = 0 := by decide
  have hdl : Int.land 4 (Int.lor (Int.lor 256 1024) 1048576) = 0 := by decide
  have hup : Int.land 4 (Int.lor 2097152 4194304) = 0 := by decide
  refine ⟨fun _ _ _ _ => rfl, ?_, ?_, ?_⟩
  · intro paused_sig appid name btd bd mt
    by_cases h0 : appid = 0
    · simp [fallback_classify, state_flags_of, h0]
    · rcases hσ : paused_sig appid <;>
        simp [fallback_classify, state_flags_of, h0, hσ, h512, hdl]
  · intro pi btd bd speed
    rcases pi with _ | pv
    · rcases btd with _ | b1
      · simp [get_status_pure, h512]
      · rcases bd with _ | b2
        · simp [get_status_pure, h512]
        · by_cases he : b1 = b2
          · by_cases hs : 0 < speed <;> simp [get_status_pure, h512, hdl, hup, he, hs]
          · simp [get_status_pure, h512, hdl, hup, he]
    · simp [get_status_pure]
  · intro pi btd bd speed
    rcases pi with _ | pv
    · rcases btd with _ | b1
      · simp [get_status_pure, h512]
      · rcases bd with _ | b2
        · simp [get_status_pure, h512]
        · by_cases he : b1 = b2
          · subst he
            by_cases hs : 0 < speed
            · have hstat : get_status_pure none 4 ⟨some b1, some b1⟩ speed =
                  DownloadState.downloading := by
                simp [get_status_pure, h512, hdl, hup, hs]
              rw [hstat]
              constructor
              · intro _
                exact ⟨rfl, hs, b1, rfl, rfl⟩
              · intro _
                rfl
            · have hstat : get_status_pure none 4 ⟨some b1, some b1⟩ speed =
                  DownloadState.idle := by
                simp [get_status_pure, h512, hdl, hup, hs]
              rw [hstat]
              constructor
              · intro h
                cases h
              · rintro ⟨_, hs2, _⟩
                exact (hs hs2).elim
          · have hstat : get_status_pure none 4 ⟨some b1, some b2⟩ speed =
                DownloadState.paused := by
              simp [get_status_pure, h512, hdl, hup, he]
            rw [hstat]
            constructor
            · intro h
              cases h
            · rintro ⟨_, _, b, hb1, hb2⟩
              injection hb1 with h1
              injection hb2 with h2
              exact (he (h1.trans h2.symm)).elim
    · simp [get_status_pure]

end SteamMonitor

